import Mathlib

/-!
Verification of the PowerPC64 macro-assembler layer of the SpiderMonkey JIT
(js/src/jit/ppc64/MacroAssembler-ppc64.cpp and MacroAssembler-ppc64-inl.h).

The emission routines are shallowly embedded: each `ma_*` / emission helper is
translated into a Lean function that returns the list of machine instructions
the C++ routine appends to the instruction buffer, and a small machine model
gives the architectural semantics (per the PowerPC ISA) of the instructions
those routines emit, so that "executing the emitted sequence" is a Lean
computation.  Register values are `Nat` below `2^64`; signed views are `Int`.

Leaf encoders that live in headers outside the provided sources
(Assembler-ppc64.h: `xs_li`, `xs_lis`, `as_bc`, the `Condition` enumeration,
`Imm16` / `BOffImm16` range tests) are modelled from the spec and the PowerPC
instruction-set architecture, as noted on each definition.
-/

namespace PPC64

/-- Signed view of a 64-bit register value (`n < 2^64`). -/
def toSigned (n : Nat) : Int :=
  if n < 2 ^ 63 then (n : Int) else (n : Int) - 2 ^ 64

/-- Signed view of a 32-bit quantity (`n < 2^32`), used by word compares. -/
def toSigned32 (n : Nat) : Int :=
  if n < 2 ^ 31 then (n : Int) else (n : Int) - 2 ^ 32

/-- Runtime value produced by `li` (addi from zero): the 16-bit immediate
field, sign-extended to 64 bits. -/
def sext16 (n : Nat) : Nat :=
  let e := n % 2 ^ 16
  if e < 2 ^ 15 then e else 2 ^ 64 - 2 ^ 16 + e

/-- Runtime value produced by `lis` (addis from zero): the 16-bit immediate
field shifted left 16, sign-extended from 32 to 64 bits. -/
def sext32of16 (n : Nat) : Nat :=
  let e := n % 2 ^ 16
  if e < 2 ^ 15 then e * 2 ^ 16 else 2 ^ 64 - 2 ^ 32 + e * 2 ^ 16

/-- Runtime value produced by `extsb`: sign-extend the low byte to 64 bits. -/
def sext8 (n : Nat) : Nat :=
  let e := n % 2 ^ 8
  if e < 2 ^ 7 then e else 2 ^ 64 - 2 ^ 8 + e

/-- Runtime value produced by `extsw`: sign-extend the low word to 64 bits. -/
def sext32 (n : Nat) : Nat :=
  let e := n % 2 ^ 32
  if e < 2 ^ 31 then e else 2 ^ 64 - 2 ^ 32 + e

/-- `Modelled from the spec:` the two reserved scratch registers
("designated scratch registers reserved for internal use by the
macro-assembler", spec section 3).  On this port the first scratch register is
r0 and the second is r12; only their identities matter here. -/
def ScratchRegister : Nat := 0

/-- `Modelled from the spec:` the second reserved scratch register (r12). -/
def SecondScratchReg : Nat := 12

/-- `Modelled from the spec:` abstract branch conditions.  The C++ `Condition`
enumeration (Assembler-ppc64.h, outside the provided sources) combines "a base
comparator (equal, not-equal, less/greater variants, signed/unsigned variants)
with modifier bits (e.g. test against zero, unsigned comparison,
carry/overflow-only)" (spec section 3); the dispatch bits observed in
MacroAssembler-ppc64.cpp are `ConditionZero`, `ConditionUnsigned` and the
XER-only conditions such as `SOBit`. -/
inductive Condition where
  | equal | notEqual
  | lessThan | greaterThan | lessThanOrEqual | greaterThanOrEqual
  | below | above | belowOrEqual | aboveOrEqual
  | zero | nonZero
  | soBit
  | always
deriving DecidableEq, Repr

/-- The `c & ConditionUnsigned` test of the C++ code: true for the unsigned
comparator variants. -/
def Condition.isUnsigned : Condition → Bool
  | .below | .above | .belowOrEqual | .aboveOrEqual => true
  | _ => false

/-- The `c & ConditionZero` test of the C++ code: true for the
test-against-zero conditions. -/
def Condition.isZero : Condition → Bool
  | .zero | .nonZero => true
  | _ => false

/-- `Modelled from the spec:` `InvertCondition` (Assembler-ppc64.h) flips the
sense of a condition. -/
def InvertCondition : Condition → Condition
  | .equal => .notEqual
  | .notEqual => .equal
  | .lessThan => .greaterThanOrEqual
  | .greaterThanOrEqual => .lessThan
  | .greaterThan => .lessThanOrEqual
  | .lessThanOrEqual => .greaterThan
  | .below => .aboveOrEqual
  | .aboveOrEqual => .below
  | .above => .belowOrEqual
  | .belowOrEqual => .above
  | .zero => .nonZero
  | .nonZero => .zero
  | .soBit => .soBit
  | .always => .always

/-- A condition-register field: the four bits set by a compare (or by a
record-form instruction): less-than, greater-than, equal, summary-overflow. -/
structure CR where
  lt : Bool
  gt : Bool
  eq : Bool
  so : Bool
deriving DecidableEq, Repr

/-- Whether a `bc` on CR0 with the given condition is taken in state `cr`.
After a signed compare the lt/gt/eq bits order signedly; after an unsigned
compare (`cmpld`/`cmplw`) the same bits order unsignedly, so the unsigned
comparators read the same bits. -/
def Condition.takes (c : Condition) (cr : CR) : Bool :=
  match c with
  | .equal => cr.eq
  | .notEqual => !cr.eq
  | .lessThan => cr.lt
  | .greaterThan => cr.gt
  | .lessThanOrEqual => !cr.gt
  | .greaterThanOrEqual => !cr.lt
  | .below => cr.lt
  | .above => cr.gt
  | .belowOrEqual => !cr.gt
  | .aboveOrEqual => !cr.lt
  | .zero => cr.eq
  | .nonZero => !cr.eq
  | .soBit => cr.so
  | .always => true

/-- Memory transfer sizes of `ma_load` / `ma_store`. -/
inductive LoadStoreSize where
  | sizeByte | sizeHalfWord | sizeWord | sizeDouble
deriving DecidableEq, Repr

/-- Extension modes of `ma_load`. -/
inductive LoadStoreExtension where
  | zeroExtend | signExtend
deriving DecidableEq, Repr

/-- The PowerPC instructions emitted by the routines under verification.
Register operands are register numbers; immediate fields carry the value the
emitter encodes (reduced mod 2^16 where the encoding keeps 16 bits). -/
inductive Inst where
  | li (rd : Nat) (imm : Nat)
  | lis (rd : Nat) (imm : Nat)
  | ori (rd ra : Nat) (imm : Nat)
  | oris (rd ra : Nat) (imm : Nat)
  | rldicr (rd ra sh me : Nat)
  | rldicl (rd ra sh mb : Nat)
  | rlwinm (rd ra sh mb me : Nat)
  | xori (rd ra : Nat) (imm : Nat)
  | orx (rd ra rb : Nat)
  | xorx (rd ra rb : Nat)
  | add (rd ra rb : Nat)
  | addoRc (rd ra rb : Nat)
  | subfoRc (rd ra rb : Nat)
  | cmpd (ra rb : Nat)
  | cmpld (ra rb : Nat)
  | cmpdi (ra : Nat) (imm : Int)
  | cmpwi (ra : Nat) (imm : Int)
  | mfcr (rd : Nat)
  | mtxer (rs : Nat)
  | mtctr (rs : Nat)
  | bctr (link : Bool)
  | nop
  | b (disp : Int)
  | bc (c : Condition) (disp : Int)
  | lbz (rd ra : Nat) (disp : Int)
  | lhz (rd ra : Nat) (disp : Int)
  | lwz (rd ra : Nat) (disp : Int)
  | ld (rd ra : Nat) (disp : Int)
  | stb (rs ra : Nat) (disp : Int)
  | sth (rs ra : Nat) (disp : Int)
  | stw (rs ra : Nat) (disp : Int)
  | std (rs ra : Nat) (disp : Int)
  | extsb (rd ra : Nat)
  | extsh (rd ra : Nat)
  | extsw (rd ra : Nat)
  | ldarx (rd ra : Nat)
  | lwarx (rd ra : Nat)
  | stdcx (rs ra : Nat)
  | stwcx (rs ra : Nat)
deriving DecidableEq, Repr

/-- Machine state for executing emitted sequences: register file, CR0, the
XER summary-overflow bit, whether the current load-reserve reservation has
been lost (the oracle deciding store-conditional success), and the target of
a taken branch, if any. -/
structure Machine where
  regs : Nat → Nat
  cr0 : CR
  xerSO : Bool
  resLost : Bool
  branchTo : Option Int

/-- Update one register. -/
def setReg (f : Nat → Nat) (r v : Nat) : Nat → Nat :=
  fun r2 => if r2 = r then v else f r2

/-- CR0 contents after a compare of signed views `x` and `y` (the SO bit
copies XER[SO], per the ISA). -/
def mkCmp (x y : Int) (so : Bool) : CR :=
  ⟨decide (x < y), decide (y < x), decide (x = y), so⟩

/-- Signed 64-bit overflow predicate for addition of two register values. -/
def addOverflows (a b : Nat) : Bool :=
  decide (toSigned a + toSigned b < -(2 ^ 63)) ||
  decide ((2 ^ 63 : Int) ≤ toSigned a + toSigned b)

/-- Signed 64-bit overflow predicate for `b - a` (the `subf` operand order). -/
def subOverflows (a b : Nat) : Bool :=
  decide (toSigned b - toSigned a < -(2 ^ 63)) ||
  decide ((2 ^ 63 : Int) ≤ toSigned b - toSigned a)

/-- Rotate a 64-bit value left by `sh`. -/
def rotl64 (x sh : Nat) : Nat :=
  ((x * 2 ^ (sh % 64)) % 2 ^ 64) + x / 2 ^ (64 - sh % 64)

/-- One step of execution.  Memory accesses and the count register do not
affect the state components the theorems below read, and are modelled as
no-ops; `stdcx`/`stwcx` set CR0[EQ] to record whether the reservation held,
per the ISA. -/
def step (m : Machine) : Inst → Machine
  | .li rd imm => { m with regs := setReg m.regs rd (sext16 imm) }
  | .lis rd imm => { m with regs := setReg m.regs rd (sext32of16 imm) }
  | .ori rd ra imm =>
      { m with regs := setReg m.regs rd (m.regs ra ||| imm % 2 ^ 16) }
  | .oris rd ra imm =>
      { m with regs := setReg m.regs rd (m.regs ra ||| (imm % 2 ^ 16) * 2 ^ 16) }
  | .rldicr rd ra sh me =>
      let rot := rotl64 (m.regs ra) sh
      { m with regs := setReg m.regs rd (rot / 2 ^ (63 - me) * 2 ^ (63 - me)) }
  | .rldicl rd ra sh mb =>
      let rot := rotl64 (m.regs ra) sh
      { m with regs := setReg m.regs rd (rot % 2 ^ (64 - mb)) }
  | .rlwinm rd _ _ _ _ => { m with regs := setReg m.regs rd (m.regs rd) }
  | .xori rd ra imm =>
      { m with regs := setReg m.regs rd (m.regs ra ^^^ imm % 2 ^ 16) }
  | .orx rd ra rb =>
      { m with regs := setReg m.regs rd (m.regs ra ||| m.regs rb) }
  | .xorx rd ra rb =>
      { m with regs := setReg m.regs rd (m.regs ra ^^^ m.regs rb) }
  | .add rd ra rb =>
      { m with regs := setReg m.regs rd ((m.regs ra + m.regs rb) % 2 ^ 64) }
  | .addoRc rd ra rb =>
      let ov := addOverflows (m.regs ra) (m.regs rb)
      let so := m.xerSO || ov
      { m with regs := setReg m.regs rd ((m.regs ra + m.regs rb) % 2 ^ 64),
               xerSO := so,
               cr0 := mkCmp (toSigned ((m.regs ra + m.regs rb) % 2 ^ 64)) 0 so }
  | .subfoRc rd ra rb =>
      let ov := subOverflows (m.regs ra) (m.regs rb)
      let so := m.xerSO || ov
      { m with regs := setReg m.regs rd
                 ((m.regs rb + (2 ^ 64 - m.regs ra % 2 ^ 64)) % 2 ^ 64),
               xerSO := so,
               cr0 := mkCmp (toSigned ((m.regs rb + (2 ^ 64 - m.regs ra % 2 ^ 64)) % 2 ^ 64)) 0 so }
  | .cmpd ra rb =>
      { m with cr0 := mkCmp (toSigned (m.regs ra)) (toSigned (m.regs rb)) m.xerSO }
  | .cmpld ra rb =>
      { m with cr0 := mkCmp (m.regs ra : Int) (m.regs rb : Int) m.xerSO }
  | .cmpdi ra imm =>
      { m with cr0 := mkCmp (toSigned (m.regs ra)) imm m.xerSO }
  | .cmpwi ra imm =>
      { m with cr0 := mkCmp (toSigned32 (m.regs ra % 2 ^ 32)) imm m.xerSO }
  | .mfcr rd => { m with regs := setReg m.regs rd (m.regs rd) }
  | .mtxer rs => { m with xerSO := (m.regs rs).testBit 31 }
  | .mtctr _ => m
  | .bctr _ => m
  | .nop => m
  | .b disp => { m with branchTo := some disp }
  | .bc c disp =>
      if c.takes m.cr0 then { m with branchTo := some disp } else m
  | .lbz rd _ _ => { m with regs := setReg m.regs rd (m.regs rd) }
  | .lhz rd _ _ => { m with regs := setReg m.regs rd (m.regs rd) }
  | .lwz rd _ _ => { m with regs := setReg m.regs rd (m.regs rd) }
  | .ld rd _ _ => { m with regs := setReg m.regs rd (m.regs rd) }
  | .stb _ _ _ => m
  | .sth _ _ _ => m
  | .stw _ _ _ => m
  | .std _ _ _ => m
  | .extsb rd ra => { m with regs := setReg m.regs rd (sext8 (m.regs ra)) }
  | .extsh rd ra => { m with regs := setReg m.regs rd (sext16 (m.regs ra)) }
  | .extsw rd ra => { m with regs := setReg m.regs rd (sext32 (m.regs ra)) }
  | .ldarx rd _ => { m with regs := setReg m.regs rd (m.regs rd) }
  | .lwarx rd _ => { m with regs := setReg m.regs rd (m.regs rd) }
  | .stdcx _ _ =>
      { m with cr0 := ⟨false, false, !m.resLost, m.xerSO⟩ }
  | .stwcx _ _ =>
      { m with cr0 := ⟨false, false, !m.resLost, m.xerSO⟩ }

/-- Execute a straight-line emitted sequence. -/
def exec (m : Machine) : List Inst → Machine
  | [] => m
  | i :: rest => exec (step m i) rest

/-- Whether the (unique, final) conditional branch of an executed sequence
was taken. -/
def branchTaken (m : Machine) : Bool := m.branchTo.isSome

/-- An all-zero starting machine, used for concrete evaluations. -/
def m0 : Machine :=
  { regs := fun _ => 0, cr0 := ⟨false, false, false, false⟩,
    xerSO := false, resLost := false, branchTo := none }

/-! ## Immediate materialization

`MacroAssemblerPPC64::ma_li(Register, int64_t)`,
MacroAssembler-ppc64.cpp lines 253-306, and
`MacroAssemblerPPC64::ma_liPatchable(Register, ImmWord)`, lines 322-332.
The `int64_t value` argument is represented by its 64-bit pattern
`bits < 2^64`; the C++ signed comparisons are expressed through `toSigned`,
and the 16-bit immediate fields hold what the encoder keeps (low 16 bits of
the C++ operand expression). -/

/-- Shallow embedding of `MacroAssemblerPPC64::ma_li(Register dest, int64_t
value)` (MacroAssembler-ppc64.cpp:253-306): the optimized 64-bit
immediate-load sequence. -/
def ma_li (dest : Nat) (bits : Nat) : List Inst :=
  -- if (value > -32769 && value < 32768)
  if -32769 < toSigned bits ∧ toSigned bits < 32768 then
    [.li dest (bits % 2 ^ 16)]
  else if bits &&& 0xffffffff0000ffff = 0 ∨
          bits &&& 0xffffffff0000ffff = 0xffffffff00000000 then
    -- fits in 16 high bits: xs_lis(dest, value >> 16)
    [.lis dest (bits / 2 ^ 16 % 2 ^ 16)]
  else
    let upper :=
      if bits &&& 0xffff000000000000 ≠ 0 then
        [.lis dest (bits / 2 ^ 48)] ++
        (if bits &&& 0x0000ffff00000000 ≠ 0 then
           [.ori dest dest (bits / 2 ^ 32 % 2 ^ 16)] else []) ++
        [.rldicr dest dest 32 31]
      else if bits &&& 0x0000ffff00000000 ≠ 0 then
        [.li dest (bits / 2 ^ 32 % 2 ^ 16), .rldicr dest dest 32 31]
      else []
    let loweronly : Bool := upper.isEmpty
    let lbits := bits % 2 ^ 32
    let lower :=
      if lbits &&& 0xffff0000 ≠ 0 then
        (if loweronly then [.lis dest (lbits / 2 ^ 16)]
         else [.oris dest dest (lbits / 2 ^ 16)]) ++
        (if lbits &&& 0xffff ≠ 0 then [.ori dest dest (lbits % 2 ^ 16)] else [])
      else if lbits &&& 0xffff ≠ 0 then
        (if loweronly then [.li dest (lbits % 2 ^ 16)]
         else [.ori dest dest (lbits % 2 ^ 16)])
      else []
    upper ++ lower

/-- Shallow embedding of `MacroAssemblerPPC64::ma_liPatchable(Register dest,
ImmWord imm)` (MacroAssembler-ppc64.cpp:322-332): the fixed-length 5-word
patchable immediate load (`Imm16::Upper`/`Imm16::Lower` keep bits 16-31 and
0-15 of their 32-bit argument). -/
def ma_liPatchable (dest : Nat) (imm : Nat) : List Inst :=
  [.lis dest (imm / 2 ^ 48 % 2 ^ 16),
   .ori dest dest (imm / 2 ^ 32 % 2 ^ 16),
   .rldicr dest dest 32 31,
   .oris dest dest (imm / 2 ^ 16 % 2 ^ 16),
   .ori dest dest (imm % 2 ^ 16)]

/-! ## Memory operand resolution

`MacroAssemblerPPC64::ma_load` (MacroAssembler-ppc64.cpp:480-525) and
`MacroAssemblerPPC64::ma_store` (lines 527-564). -/

/-- `Modelled from the spec:` `Imm16::IsInSignedRange` (Assembler-ppc64.h,
outside the provided sources): whether an offset fits "the architecture's
signed 16-bit displacement field" (spec section 4.2). -/
def Imm16_IsInSignedRange (x : Int) : Bool :=
  decide (-(2 ^ 15) ≤ x) && decide (x < 2 ^ 15)

/-- 64-bit pattern of a signed (int32) offset, as produced by the C++
`(uint64_t)imm.value` sign-extending conversion in
`ma_li(Register, Imm32)` (MacroAssembler-ppc64.cpp:2818-2822). -/
def u64ofInt (x : Int) : Nat := (x % 2 ^ 64).toNat

/-- The single memory-access instruction of each `ma_load` switch case
(MacroAssembler-ppc64.cpp:503-521). -/
def loadInst (size : LoadStoreSize) (dest b : Nat) (disp : Int) : Inst :=
  match size with
  | .sizeByte => .lbz dest b disp
  | .sizeHalfWord => .lhz dest b disp
  | .sizeWord => .lwz dest b disp
  | .sizeDouble => .ld dest b disp

/-- The sign-extension instruction each narrow `ma_load` switch case appends
when `SignExtend` was requested (MacroAssembler-ppc64.cpp:506-517); empty
for zero extension or full-width loads. -/
def loadSext (size : LoadStoreSize) (ext : LoadStoreExtension) (dest : Nat) :
    List Inst :=
  match size, ext with
  | .sizeByte, .signExtend => [.extsb dest dest]
  | .sizeHalfWord, .signExtend => [.extsh dest dest]
  | .sizeWord, .signExtend => [.extsw dest dest]
  | _, _ => []

/-- The single memory-access instruction of each `ma_store` switch case
(MacroAssembler-ppc64.cpp:548-560). -/
def storeInst (size : LoadStoreSize) (data b : Nat) (disp : Int) : Inst :=
  match size with
  | .sizeByte => .stb data b disp
  | .sizeHalfWord => .sth data b disp
  | .sizeWord => .stw data b disp
  | .sizeDouble => .std data b disp

/-- Shallow embedding of `MacroAssemblerPPC64::ma_load(Register, Address,
LoadStoreSize, LoadStoreExtension)` (MacroAssembler-ppc64.cpp:480-525): if
the offset is outside the signed 16-bit displacement range, or the base is
the first scratch register, materialize the offset into the second scratch
register, add the base, and access with zero displacement; otherwise access
directly.  Narrow sign-extending loads append the extension instruction. -/
def ma_load (dest base : Nat) (offset : Int) (size : LoadStoreSize)
    (ext : LoadStoreExtension) : List Inst :=
  if Imm16_IsInSignedRange offset = false ∨ base = ScratchRegister then
    ma_li SecondScratchReg (u64ofInt offset) ++
    [.add SecondScratchReg base SecondScratchReg] ++
    (loadInst size dest SecondScratchReg 0 :: loadSext size ext dest)
  else
    loadInst size dest base offset :: loadSext size ext dest

/-- Shallow embedding of `MacroAssemblerPPC64::ma_store(Register, Address,
LoadStoreSize, LoadStoreExtension)` (MacroAssembler-ppc64.cpp:527-564); the
extension argument is unused by the store switch. -/
def ma_store (data base : Nat) (offset : Int) (size : LoadStoreSize) :
    List Inst :=
  if Imm16_IsInSignedRange offset = false ∨ base = ScratchRegister then
    ma_li SecondScratchReg (u64ofInt offset) ++
    [.add SecondScratchReg base SecondScratchReg] ++
    [storeInst size data SecondScratchReg 0]
  else
    [storeInst size data base offset]

/-- Whether an instruction accesses memory. -/
def isMemAccess : Inst → Bool
  | .lbz _ _ _ | .lhz _ _ _ | .lwz _ _ _ | .ld _ _ _ => true
  | .stb _ _ _ | .sth _ _ _ | .stw _ _ _ | .std _ _ _ => true
  | .ldarx _ _ | .lwarx _ _ | .stdcx _ _ | .stwcx _ _ => true
  | _ => false

/-! ## Control transfer: toggled calls

`MacroAssemblerPPC64Compat::toggledCall(JitCode*, bool)`,
MacroAssembler-ppc64.cpp lines 1831-1848.  `addPendingJump` only records
relocation metadata and emits nothing; the call target address is abstracted
to its 64-bit pattern. -/

/-- Shallow embedding of `MacroAssemblerPPC64Compat::toggledCall`
(MacroAssembler-ppc64.cpp:1831-1848): the patchable address load followed by
either `mtctr`/`bctrl`/`nop` (enabled) or the no-op filler (disabled),
exactly as the two branches of the C++ `if (enabled)` emit. -/
def toggledCall (target : Nat) (enabled : Bool) : List Inst :=
  ma_liPatchable ScratchRegister target ++
  (if enabled then [.mtctr ScratchRegister, .bctr true, .nop]
   else [.nop, .nop])

/-! ## Compare-and-branch synthesis

`MacroAssemblerPPC64::ma_bc(Register, Register, Label*, Condition, JumpKind)`
(MacroAssembler-ppc64.cpp:3236-3255) emits the compare selected by the
condition's modifier bits and then delegates to the CR0 branch emitter, which
for a bound label in short range appends a single `bc`.  The label's resolved
displacement is a parameter here. -/

/-- Shallow embedding of `MacroAssemblerPPC64::ma_bc(Register lhs, Register
rhs, Label* label, Condition c, JumpKind)` (MacroAssembler-ppc64.cpp:
3236-3255) for a bound, short-range label at displacement `disp`:
`Always` branches unconditionally; a `ConditionZero` condition compares the
register against zero (`cmpdi`); a `ConditionUnsigned` condition uses the
unsigned doubleword compare (`cmpld`); otherwise the signed compare
(`cmpd`). -/
def ma_bc_regreg_short (lhs rhs : Nat) (c : Condition) (disp : Int) : List Inst :=
  if c = .always then [.b disp]
  else if c.isZero then [.cmpdi lhs 0, .bc c disp]
  else if c.isUnsigned then [.cmpld lhs rhs, .bc c disp]
  else [.cmpd lhs rhs, .bc c disp]

/-- Shallow embedding of the condition-only
`MacroAssemblerPPC64::ma_bc(Condition, Label*, JumpKind)` branch on CR0
(MacroAssembler-ppc64.cpp:597-602 delegating to lines 621-651) for a bound,
short-range label: a single `bc` testing CR0 as it stands. -/
def ma_bc_cond_short (c : Condition) (disp : Int) : List Inst :=
  [.bc c disp]

/-- Branch emission modes (`JumpKind`): the caller's hint whether the branch
may be assumed short. -/
inductive JumpKind where
  | shortJump | longJump
deriving DecidableEq, Repr

/-- `Modelled from the spec:` `BOffImm16::IsInSignedRange`
(Assembler-ppc64.h, outside the provided sources): whether a byte
displacement fits the conditional branch's signed 16-bit displacement field
("the short-branch encodable range", spec section 4.3). -/
def BOffImm16_IsInSignedRange (offset : Int) : Bool :=
  decide (-(2 ^ 15) ≤ offset) && decide (offset < 2 ^ 15)

/-- `Modelled from the spec:` `LabelBase::INVALID_OFFSET`, the placeholder
constant loaded by the patchable stanza before the linker rewrites it; its
value never matters to the claims. -/
def INVALID_OFFSET : Nat := 0x7fffffff

/-- Shallow embedding of the bound-label case of
`MacroAssemblerPPC64::ma_bc(CRegisterID, T, Label*, JumpKind)`
(MacroAssembler-ppc64.cpp:621-651), with the displacement `offset` from the
branch site to the bound label already computed (line 629).  In-range
displacements force `jumpKind = ShortJump` and emit one `bc`; an out-of-range
displacement with `ShortJump` trips `MOZ_ASSERT(BOffImm16::IsInSignedRange)`,
modelled as `none`; otherwise the inverted-sense short branch hops 8 words
over the patchable load / `mtctr` / `bctr` stanza. -/
def ma_bc_bound (c : Condition) (offset : Int) (jumpKind : JumpKind) :
    Option (List Inst) :=
  if BOffImm16_IsInSignedRange offset then
    some [.bc c offset]
  else
    match jumpKind with
    | .shortJump => none
    | .longJump =>
        some (.bc (InvertCondition c) 32 ::
          (ma_liPatchable SecondScratchReg INVALID_OFFSET ++
           [.mtctr SecondScratchReg, .bctr false]))

/-! ## Atomic read-modify-write retry branches

The instruction subsequences each atomic template emits from its
store-conditional onward (the emitted loop tail that decides whether to
retry).  `tryAgain`/`again` displacements are parameters. -/

/-- `CompareExchange64` (MacroAssembler-ppc64.cpp:2439-2461), from the
`as_stdcx` at line 2455 through the retry branch at line 2456, which is
`ma_bc(ScratchRegister, ScratchRegister, &tryAgain, Assembler::NotEqual,
ShortJump)`. -/
def compareExchange64_storeTail (disp : Int) : List Inst :=
  .stdcx ScratchRegister SecondScratchReg ::
  ma_bc_regreg_short ScratchRegister ScratchRegister .notEqual disp

/-- `AtomicFetchOp64` (MacroAssembler-ppc64.cpp:2498-2538), from the
`as_stdcx` at line 2534 through the retry branch at line 2535, which is
`ma_bc(temp.reg, temp.reg, &tryAgain, Assembler::NotEqual, ShortJump)`. -/
def atomicFetchOp64_storeTail (temp : Nat) (disp : Int) : List Inst :=
  .stdcx temp SecondScratchReg ::
  ma_bc_regreg_short temp temp .notEqual disp

/-- The byte/half-word path of `CompareExchange`
(MacroAssembler-ppc64.cpp:4374-4467), from the `as_stwcx` at line 4459
through the retry branch at line 4461, which is `ma_bc(ScratchRegister,
ScratchRegister, &again, Assembler::Zero, ShortJump)`. -/
def compareExchange_subword_storeTail (disp : Int) : List Inst :=
  .stwcx ScratchRegister SecondScratchReg ::
  ma_bc_regreg_short ScratchRegister ScratchRegister .zero disp

/-- The 4-byte path of `CompareExchange` (MacroAssembler-ppc64.cpp:
4398-4411), from the `as_stwcx` at line 4405 through the retry branch at
line 4406, which is the condition-only `ma_bc(Assembler::NotEqual, &again,
ShortJump)` reading CR0 as the store-conditional left it. -/
def compareExchange_word_storeTail (newval : Nat) (disp : Int) : List Inst :=
  .stwcx newval SecondScratchReg :: ma_bc_cond_short .notEqual disp

/-! ## Compare-and-set synthesis -/

/-- Shallow embedding of `MacroAssemblerPPC64::ma_cmp_set(Register rd,
Register rs, Register rt, Condition c)` (MacroAssembler-ppc64.cpp:3383-3429):
select the CR0 bit position for the condition, compare — always with the
signed `as_cmpd` — copy CR to `rd`, rotate-and-mask the selected bit out,
and invert it for the negated comparators.  Conditions outside the `switch`
hit `MOZ_CRASH`, modelled as `none`. -/
def ma_cmp_set (rd rs rt : Nat) (c : Condition) : Option (List Inst) :=
  let shift? : Option Nat :=
    match c with
    | .equal | .notEqual => some 2
    | .above => some 1
    | .aboveOrEqual | .greaterThanOrEqual | .below | .lessThan => some 3
    | .belowOrEqual | .lessThanOrEqual | .greaterThan => some 1
    | _ => none
  match shift? with
  | none => none
  | some shift =>
      let negate : Bool :=
        match c with
        | .notEqual | .aboveOrEqual | .greaterThanOrEqual
        | .lessThanOrEqual | .belowOrEqual => true
        | _ => false
      some ([.mfcr rd, .cmpd rs rt, .mfcr rd,
             .rlwinm rd rd ((3 - shift) + 28) 30 31] ++
            (if negate then [.xori rd rd 1] else []))

/-- A machine whose register 4 holds the bit pattern of -1 and whose
register 5 holds 1: the operand pair on which signed and unsigned less-than
disagree. -/
def mCmpNeg : Machine :=
  { regs := fun r => if r = 4 then 2 ^ 64 - 1 else 1,
    cr0 := ⟨false, false, false, false⟩,
    xerSO := false, resLost := false, branchTo := none }

/-- A machine state at the moment the store-conditional executes with its
reservation lost (`resLost = true`); every register holds 5, a nonzero
stand-in for the recombined word value the subword path stores. -/
def mLost : Machine :=
  { regs := fun _ => 5, cr0 := ⟨false, false, false, false⟩,
    xerSO := false, resLost := true, branchTo := none }

/-! ## Overflow-testing arithmetic

`MacroAssemblerPPC64::ma_addTestOverflow` (MacroAssembler-ppc64.cpp:413-426)
and `MacroAssemblerPPC64::ma_subTestOverflow` (lines 463-476). -/

/-- Shallow embedding of `MacroAssemblerPPC64::ma_addTestOverflow(Register,
Register, Register, Label*)` (MacroAssembler-ppc64.cpp:413-426): zero the
XER summary-overflow bit (`xs_li`/`xs_mtxer`), then the overflow-recording
record-form add, then the branch on CR0[SO]; `disp` is the overflow label's
linked displacement. -/
def ma_addTestOverflow (rd rs rt : Nat) (disp : Int) : List Inst :=
  [.li ScratchRegister 0, .mtxer ScratchRegister, .addoRc rd rs rt] ++
  ma_bc_cond_short .soBit disp

/-- Shallow embedding of `MacroAssemblerPPC64::ma_subTestOverflow(Register,
Register, Register, Label*)` (MacroAssembler-ppc64.cpp:463-476): as for the
add form, with `as_subfo_rc(rd, rt, rs)` computing `rs - rt`. -/
def ma_subTestOverflow (rd rs rt : Nat) (disp : Int) : List Inst :=
  [.li ScratchRegister 0, .mtxer ScratchRegister, .subfoRc rd rt rs] ++
  ma_bc_cond_short .soBit disp

/-! ## Value unboxing

`MacroAssembler::fallibleUnboxPtr(const ValueOperand&, Register,
JSValueType, Label*)` (MacroAssembler-ppc64-inl.h:2166-2183). -/

/-- `Modelled from the spec:` the tagged-value tag-field shift
(`JSVAL_TAG_SHIFT`, from the runtime's Value layout outside the provided
sources): the tag occupies the bits from position 47 up. -/
def JSVAL_TAG_SHIFT : Nat := 47

/-- `Modelled from the spec:` the four shifted pointer-type tags
(`JSVAL_TYPE_TO_SHIFTED_TAG` of object/string/symbol/BigInt, from the
runtime's Value layout outside the provided sources): each is a 17-bit tag
placed at bit 47. -/
def shiftedPointerTags : List Nat :=
  [0x1FFFC * 2 ^ 47, 0x1FFF6 * 2 ^ 47, 0x1FFF7 * 2 ^ 47, 0x1FFF9 * 2 ^ 47]

/-- Shallow embedding of `MacroAssembler::fallibleUnboxPtr(const
ValueOperand& src, Register dest, JSValueType type, Label* fail)`
(MacroAssembler-ppc64-inl.h:2166-2183): load the expected shifted tag into
the scratch register (`mov` = `ma_li`), XOR it with the value
(`ma_xor(rd, rs)` is `as_xor(rd, rd, rs)`), move the XOR result to `dest`
(`ma_move` is `as_or(rd, rs, rs)`), shift the scratch right by the tag shift
(`x_srdi` is `rldicl(rd, rs, 64-n, n)`), and branch to `fail` when the
shifted result is nonzero (`ma_bc(scratch, Imm32(0), fail, NotEqual)`
emits `cmpwi` against 0 then the branch). -/
def fallibleUnboxPtr (src dest : Nat) (shiftedTag : Nat) (disp : Int) :
    List Inst :=
  ma_li ScratchRegister shiftedTag ++
  [.xorx ScratchRegister ScratchRegister src,
   .orx dest ScratchRegister ScratchRegister,
   .rldicl ScratchRegister ScratchRegister (64 - JSVAL_TAG_SHIFT) JSVAL_TAG_SHIFT,
   .cmpwi ScratchRegister 0,
   .bc .notEqual disp]

/-! ## Register moves -/

/-- Shallow embedding of `MacroAssembler::move64To32(Register64 src,
Register dest)` (MacroAssembler-ppc64-inl.h:42-50): a plain full-width
register move (`as_or(dest, src, src)`), with no masking of the upper
word. -/
def move64To32 (src dest : Nat) : List Inst :=
  [.orx dest src src]

/-- A machine for the unboxing witness: register 4 holds an object-tagged
value with payload 99. -/
def mUnbox : Machine :=
  { regs := fun r => if r = 4 then 0x1FFFC * 2 ^ 47 ||| 99 else 0,
    cr0 := ⟨false, false, false, false⟩,
    xerSO := false, resLost := false, branchTo := none }

/-- A machine for the overflow witnesses: register 4 holds `2^63 - 1`
(INT64_MAX), register 5 holds 1, and — the point of the claim — XER[SO] is
still set from some earlier overflow. -/
def mOvf : Machine :=
  { regs := fun r => if r = 4 then 2 ^ 63 - 1 else if r = 5 then 1 else 0,
    cr0 := ⟨false, false, false, false⟩,
    xerSO := true, resLost := false, branchTo := none }

end PPC64

namespace PPC64

/-- C1: the claim states that for every 64-bit `V`, executing `ma_li(dest, V)`
leaves `dest` holding exactly `V`, explicitly including values just above the
16-bit signed range.  It fails at `V = 32768 = 0x8000`: `ma_li` reaches its
low-halfword path and emits a single `li dest, 0x8000`, whose immediate is
sign-extended by the hardware, so `dest` ends holding
`0xFFFFFFFFFFFF8000 = 2^64 - 32768`, not `32768`. -/
theorem ma_li_not_roundtrip_at_32768 :
    ma_li 3 32768 = [Inst.li 3 32768] ∧
    (exec m0 (ma_li 3 32768)).regs 3 = 2 ^ 64 - 32768 ∧
    (exec m0 (ma_li 3 32768)).regs 3 ≠ 32768 := by
  refine ⟨by decide, by decide, by decide⟩

/-- C2: for every 64-bit immediate, `ma_liPatchable(dest, imm)` emits exactly
5 instruction words (20 bytes at 4 bytes per instruction), never skipping an
instruction whose operand bits are zero. -/
theorem ma_liPatchable_always_five_words (dest imm : Nat) :
    (ma_liPatchable dest imm).length = 5 ∧
    4 * (ma_liPatchable dest imm).length = 20 := by
  constructor <;> rfl

/-- C3: the claim states that `toggledCall` emits the same total instruction
count for both values of `enabled`.  It fails: after the 5-word patchable
load, the enabled branch emits `mtctr`, `bctrl` and one trailing `nop`
(8 words total), but the disabled branch emits only two `nop`s (7 words
total), so the two call sites differ in byte length — contradicting the
code's own size assertion `nextOffset() - offset == ToggledCallSize(nullptr)`
which demands one fixed size for both branches. -/
theorem toggledCall_sizes_differ :
    (toggledCall 0 true).length = 8 ∧
    (toggledCall 0 false).length = 7 ∧
    (toggledCall 0 true).length ≠ (toggledCall 0 false).length := by
  refine ⟨by decide, by decide, by decide⟩

/-- C4: the claim states that in every emitted atomic read-modify-write loop
the branch after the store-conditional is taken exactly when the
store-conditional reports loss of reservation.  It fails: in
`CompareExchange64`, `AtomicFetchOp64` and the byte/half-word
`CompareExchange`, the retry branch is emitted through the
register-vs-register `ma_bc` form with both operands the same register, so a
`cmpd`/`cmpdi` overwrites CR0 (where `stdcx.`/`stwcx.` reported the loss)
before the `bc` tests it: executing each store tail in state `mLost`, whose
reservation is lost, leaves the retry branch untaken (and the subword form's
branch depends on the stored word's value, not on the reservation).  Only the
4-byte `CompareExchange` path branches on CR0 directly, and is indeed taken
in the same state. -/
theorem atomic_retry_branch_ignores_reservation :
    mLost.resLost = true ∧
    branchTaken (exec mLost (compareExchange64_storeTail (-20))) = false ∧
    branchTaken (exec mLost (atomicFetchOp64_storeTail 6 (-24))) = false ∧
    branchTaken (exec mLost (compareExchange_subword_storeTail (-36))) = false ∧
    branchTaken (exec mLost (compareExchange_word_storeTail 7 (-16))) = true := by
  refine ⟨rfl, by decide, by decide, by decide, by decide⟩

/-- C5: for every branch emission to an already-bound label, a displacement
within the short-branch signed 16-bit range yields exactly one
conditional-branch instruction (for either jump kind), and an out-of-range
displacement yields an inverted-condition short branch skipping a stanza of
the 5-instruction patchable absolute-target load into the second scratch
register, a `mtctr`, and the indirect `bctr`: the whole group is 8 words and
the inverted branch's +32-byte displacement is exactly 4 bytes times those 8
words, landing just past the stanza. -/
theorem ma_bc_bound_short_and_long (c : Condition) (offset : Int)
    (kind : JumpKind) :
    (BOffImm16_IsInSignedRange offset = true →
       ma_bc_bound c offset kind = some [Inst.bc c offset]) ∧
    (BOffImm16_IsInSignedRange offset = false →
       ma_bc_bound c offset .longJump =
         some (Inst.bc (InvertCondition c) 32 ::
           (ma_liPatchable SecondScratchReg INVALID_OFFSET ++
            [Inst.mtctr SecondScratchReg, Inst.bctr false])) ∧
       ∀ l : List Inst, ma_bc_bound c offset .longJump = some l →
         l.length = 8 ∧ (32 : Int) = 4 * (l.length : Int)) := by
  constructor
  · intro h
    simp [ma_bc_bound, h]
  · intro h
    refine ⟨by simp [ma_bc_bound, h], ?_⟩
    intro l hl
    simp [ma_bc_bound, h] at hl
    subst hl
    constructor <;> rfl

/-- Witness for C5 at the concrete displacements 0 (short range) and 40000
(out of short range). -/
theorem ma_bc_bound_short_and_long_witness :
    ma_bc_bound .equal 0 .longJump = some [Inst.bc .equal 0] ∧
    ma_bc_bound .equal 40000 .longJump =
      some (Inst.bc (InvertCondition .equal) 32 ::
        (ma_liPatchable SecondScratchReg INVALID_OFFSET ++
         [Inst.mtctr SecondScratchReg, Inst.bctr false])) :=
  ⟨(ma_bc_bound_short_and_long .equal 0 .longJump).1 (by decide),
   ((ma_bc_bound_short_and_long .equal 40000 .longJump).2 (by decide)).1⟩

/-- Helper: the optimized immediate load emits no memory-access
instruction, whatever the value. -/
theorem ma_li_filter_isMemAccess (d v : Nat) :
    (ma_li d v).filter isMemAccess = [] := by
  unfold ma_li
  split_ifs <;>
    simp [List.filter_append, List.filter, isMemAccess] <;>
    split_ifs <;>
    simp [List.filter_append, List.filter, isMemAccess]

/-- Helper: the optional sign-extension tail contains no memory access. -/
theorem loadSext_filter_isMemAccess (size : LoadStoreSize)
    (ext : LoadStoreExtension) (d : Nat) :
    (loadSext size ext d).filter isMemAccess = [] := by
  cases size <;> cases ext <;> rfl

/-- Helper: the selected load instruction is a memory access. -/
theorem isMemAccess_loadInst (size : LoadStoreSize) (d b : Nat) (o : Int) :
    isMemAccess (loadInst size d b o) = true := by
  cases size <;> rfl

/-- Helper: the selected store instruction is a memory access. -/
theorem isMemAccess_storeInst (size : LoadStoreSize) (d b : Nat) (o : Int) :
    isMemAccess (storeInst size d b o) = true := by
  cases size <;> rfl

/-- C7 counterexample: the claim states that whenever the offset fits the
signed 16-bit displacement field, exactly one memory-access instruction is
emitted.  With the first scratch register (r0, which the hardware reads as
literal zero in a displacement access) as base and the in-range offset 0,
`ma_load` instead takes the scratch path and emits three instructions. -/
theorem ma_load_fitting_offset_not_single :
    Imm16_IsInSignedRange 0 = true ∧
    ma_load 3 ScratchRegister 0 .sizeDouble .zeroExtend =
      [Inst.li SecondScratchReg 0,
       Inst.add SecondScratchReg ScratchRegister SecondScratchReg,
       Inst.ld 3 SecondScratchReg 0] ∧
    (ma_load 3 ScratchRegister 0 .sizeDouble .zeroExtend).length ≠ 1 := by
  refine ⟨by decide, by decide, by decide⟩

/-- C7 as amended: for every load or store with a base register other than
the first scratch register and an offset fitting the signed 16-bit
displacement field, exactly one memory-access instruction is emitted, with
that displacement; when the offset does not fit (or the base is the scratch
register) the offset is materialized into the second scratch register, added
to the base, and the access uses displacement zero off the second scratch
register; in all cases the emitted sequence contains exactly one
memory-access instruction, and a narrow load with sign extension requested
is followed immediately by its separate extension instruction. -/
theorem ma_load_store_offset_resolution (dest base : Nat) (offset : Int)
    (size : LoadStoreSize) (ext : LoadStoreExtension) :
    (Imm16_IsInSignedRange offset = true → base ≠ ScratchRegister →
       ma_load dest base offset size ext =
         loadInst size dest base offset :: loadSext size ext dest ∧
       ma_store dest base offset size = [storeInst size dest base offset]) ∧
    (Imm16_IsInSignedRange offset = false ∨ base = ScratchRegister →
       ma_load dest base offset size ext =
         ma_li SecondScratchReg (u64ofInt offset) ++
         [Inst.add SecondScratchReg base SecondScratchReg] ++
         (loadInst size dest SecondScratchReg 0 :: loadSext size ext dest) ∧
       ma_store dest base offset size =
         ma_li SecondScratchReg (u64ofInt offset) ++
         [Inst.add SecondScratchReg base SecondScratchReg] ++
         [storeInst size dest SecondScratchReg 0]) ∧
    ((ma_load dest base offset size ext).filter isMemAccess).length = 1 ∧
    ((ma_store dest base offset size).filter isMemAccess).length = 1 := by
  refine ⟨?_, ?_, ?_, ?_⟩
  · intro h1 h2
    rw [ma_load, ma_store, if_neg, if_neg] <;> simp [h1, h2]
  · intro h
    rw [ma_load, ma_store, if_pos, if_pos] <;> simp [h]
  · rw [ma_load]
    split_ifs with h <;> cases size <;> cases ext <;>
      simp [List.filter_append, List.filter, ma_li_filter_isMemAccess,
            isMemAccess, loadSext, loadInst]
  · rw [ma_store]
    split_ifs with h <;> cases size <;>
      simp [List.filter_append, List.filter, ma_li_filter_isMemAccess,
            isMemAccess, storeInst]

/-- Witness for C7 as amended, at a fitting offset with an ordinary base
(r3 + 8, halfword signed load) and at an out-of-range offset (r3 + 40000). -/
theorem ma_load_store_offset_resolution_witness :
    (ma_load 5 3 8 .sizeHalfWord .signExtend =
       [Inst.lhz 5 3 8, Inst.extsh 5 5] ∧
     ma_store 5 3 8 .sizeHalfWord = [Inst.sth 5 3 8]) ∧
    (ma_load 5 3 40000 .sizeHalfWord .signExtend =
       ma_li SecondScratchReg (u64ofInt 40000) ++
       [Inst.add SecondScratchReg 3 SecondScratchReg] ++
       [Inst.lhz 5 SecondScratchReg 0, Inst.extsh 5 5] ∧
     ma_store 5 3 40000 .sizeHalfWord =
       ma_li SecondScratchReg (u64ofInt 40000) ++
       [Inst.add SecondScratchReg 3 SecondScratchReg] ++
       [Inst.sth 5 SecondScratchReg 0]) :=
  ⟨(ma_load_store_offset_resolution 5 3 8 .sizeHalfWord .signExtend).1
     (by decide) (by decide),
   (ma_load_store_offset_resolution 5 3 40000 .sizeHalfWord .signExtend).2.1
     (Or.inl (by decide))⟩

/-- C6: the claim states that every compare emitted by a compare-and-branch
or compare-and-set operation uses the unsigned compare exactly when the
condition carries the unsigned modifier.  The compare-and-branch form does
(`ma_bc_regreg_short` below for the unsigned `Below` emits `cmpld`, and the
zero-test form compares against zero with no second operand register), and
signed/unsigned less-than genuinely disagree at (-1, 1); but
`ma_cmp_set(Register, Register, Register, Condition)` emits the signed
`cmpd` even for `Below`, whose CR0[LT] at (-1, 1) is then the signed answer
`true` instead of the unsigned `false`. -/
theorem ma_cmp_set_ignores_unsigned_modifier :
    Condition.isUnsigned .below = true ∧
    ma_cmp_set 3 4 5 .below =
      some [Inst.mfcr 3, Inst.cmpd 4 5, Inst.mfcr 3,
            Inst.rlwinm 3 3 28 30 31] ∧
    ma_bc_regreg_short 4 5 .below 16 = [Inst.cmpld 4 5, Inst.bc .below 16] ∧
    ma_bc_regreg_short 4 4 .nonZero 16 = [Inst.cmpdi 4 0, Inst.bc .nonZero 16] ∧
    (exec mCmpNeg [Inst.cmpd 4 5]).cr0.lt = true ∧
    (exec mCmpNeg [Inst.cmpld 4 5]).cr0.lt = false := by
  refine ⟨by decide, by decide, by decide, by decide, by decide, by decide⟩

/-- C9: both overflow-testing emissions first zero XER[SO] (`li` 0 /
`mtxer`) before the overflow-recording arithmetic, so whatever overflow
state `m.xerSO` an earlier operation left behind, the branch after the
record-form add (resp. subtract) is taken exactly when this operation
itself overflowed 64-bit signed arithmetic. -/
theorem ma_addSubTestOverflow_branch_iff_overflow (m : Machine)
    (rd rs rt : Nat) (disp : Int)
    (hrs : rs ≠ ScratchRegister) (hrt : rt ≠ ScratchRegister)
    (hbr : m.branchTo = none) :
    branchTaken (exec m (ma_addTestOverflow rd rs rt disp)) =
      addOverflows (m.regs rs) (m.regs rt) ∧
    branchTaken (exec m (ma_subTestOverflow rd rs rt disp)) =
      subOverflows (m.regs rt) (m.regs rs) := by
  have hrs0 : rs ≠ 0 := by simpa [ScratchRegister] using hrs
  have hrt0 : rt ≠ 0 := by simpa [ScratchRegister] using hrt
  constructor
  · rw [ma_addTestOverflow]
    cases hov : addOverflows (m.regs rs) (m.regs rt) <;>
      simp [exec, step, ma_bc_cond_short, setReg, ScratchRegister, hrs0,
            hrt0, hbr, sext16, Nat.zero_testBit, Condition.takes, mkCmp,
            branchTaken, hov]
  · rw [ma_subTestOverflow]
    cases hov : subOverflows (m.regs rt) (m.regs rs) <;>
      simp [exec, step, ma_bc_cond_short, setReg, ScratchRegister, hrs0,
            hrt0, hbr, sext16, Nat.zero_testBit, Condition.takes, mkCmp,
            branchTaken, hov]

/-- Witness for C9: in `mOvf`, where XER[SO] is still set from an earlier
operation, adding INT64_MAX and 1 takes the overflow branch, while
subtracting 1 from INT64_MAX — which does not overflow — leaves it untaken
despite the stale XER[SO]. -/
theorem ma_addSubTestOverflow_witness :
    branchTaken (exec mOvf (ma_addTestOverflow 3 4 5 16)) = true ∧
    branchTaken (exec mOvf (ma_subTestOverflow 3 4 5 16)) = false := by
  have h := ma_addSubTestOverflow_branch_iff_overflow mOvf 3 4 5 16
    (by decide) (by decide) rfl
  exact ⟨h.1.trans (by decide), h.2.trans (by decide)⟩

/-- Helper: executing an appended sequence is sequential execution. -/
theorem exec_append (a b : List Inst) (m : Machine) :
    exec m (a ++ b) = exec (exec m a) b := by
  induction a generalizing m with
  | nil => rfl
  | cons i tl ih => simp [exec, ih]

/-- Helper: the optimized immediate load writes no register but its
destination. -/
theorem exec_ma_li_regs_ne (m : Machine) (d v r : Nat) (h : r ≠ d) :
    (exec m (ma_li d v)).regs r = m.regs r := by
  unfold ma_li
  split_ifs <;>
    simp [exec, step, setReg, h] <;>
    split_ifs <;>
    simp [exec, step, setReg, h, List.isEmpty]

/-- Helper: the optimized immediate load contains no branch. -/
theorem exec_ma_li_branchTo (m : Machine) (d v : Nat) :
    (exec m (ma_li d v)).branchTo = m.branchTo := by
  unfold ma_li
  split_ifs <;>
    simp [exec, step, setReg] <;>
    split_ifs <;>
    simp [exec, step, setReg, List.isEmpty]

/-- Helper: each of the four modelled shifted pointer tags is correctly
materialized into the scratch register by the optimized immediate load. -/
theorem exec_ma_li_tag (m : Machine) (t : Nat) (h : t ∈ shiftedPointerTags) :
    (exec m (ma_li ScratchRegister t)).regs ScratchRegister = t := by
  fin_cases h
  · rw [show ma_li ScratchRegister (0x1FFFC * 2 ^ 47) =
        [Inst.lis 0 0xFFFE, Inst.rldicr 0 0 32 31] from by decide]
    simp [exec, step, setReg, ScratchRegister]
    all_goals decide
  · rw [show ma_li ScratchRegister (0x1FFF6 * 2 ^ 47) =
        [Inst.lis 0 0xFFFB, Inst.rldicr 0 0 32 31] from by decide]
    simp [exec, step, setReg, ScratchRegister]
    all_goals decide
  · rw [show ma_li ScratchRegister (0x1FFF7 * 2 ^ 47) =
        [Inst.lis 0 0xFFFB, Inst.ori 0 0 0x8000,
         Inst.rldicr 0 0 32 31] from by decide]
    simp [exec, step, setReg, ScratchRegister]
    all_goals decide
  · rw [show ma_li ScratchRegister (0x1FFF9 * 2 ^ 47) =
        [Inst.lis 0 0xFFFC, Inst.ori 0 0 0x8000,
         Inst.rldicr 0 0 32 31] from by decide]
    simp [exec, step, setReg, ScratchRegister]
    all_goals decide

/-- Helper: reading the register just written. -/
theorem setReg_same (f : Nat → Nat) (r v : Nat) : setReg f r v r = v := by
  simp [setReg]

/-- Helper: reading a register other than the one written. -/
theorem setReg_other (f : Nat → Nat) (r v r2 : Nat) (h : r2 ≠ r) :
    setReg f r v r2 = f r2 := by
  simp [setReg, h]

/-- Helper: `rldicl rd, rs, 17, 47` (the `x_srdi` expansion for the tag
shift) computes a logical right shift by 47. -/
theorem rotl64_srdi47 (x : Nat) (hx : x < 2 ^ 64) :
    rotl64 x 17 % 2 ^ 17 = x / 2 ^ 47 := by
  have hB : x / 2 ^ 47 < 2 ^ 17 := by
    apply Nat.div_lt_of_lt_mul
    calc x < 2 ^ 64 := hx
    _ = 2 ^ 47 * 2 ^ 17 := by norm_num
  obtain ⟨c, hc⟩ : (2 : Nat) ^ 17 ∣ (x * 2 ^ 17) % 2 ^ 64 :=
    (Nat.dvd_mod_iff ⟨2 ^ 47, by norm_num⟩).2 (dvd_mul_left _ _)
  unfold rotl64
  rw [show (17 : Nat) % 64 = 17 from by norm_num,
      show (64 : Nat) - 17 = 47 from by norm_num, hc, Nat.mul_add_mod]
  exact Nat.mod_eq_of_lt hB

/-- Helper: logical right shift distributes over XOR. -/
theorem xor_div_two_pow (a b k : Nat) :
    (a ^^^ b) / 2 ^ k = a / 2 ^ k ^^^ b / 2 ^ k := by
  rw [← Nat.shiftRight_eq_div_pow, ← Nat.shiftRight_eq_div_pow,
      ← Nat.shiftRight_eq_div_pow]
  apply Nat.eq_of_testBit_eq
  intro i
  simp [Nat.testBit_shiftRight, Nat.testBit_xor]

/-- Helper: bitwise-disjoint values have a zero AND when one's set bits are
at or above `k` and the other's are below. -/
theorem land_eq_zero_of_mod_lt (t p k : Nat) (ht : t % 2 ^ k = 0)
    (hp : p < 2 ^ k) : t &&& p = 0 := by
  apply Nat.eq_of_testBit_eq
  intro i
  rw [Nat.testBit_and, Nat.zero_testBit]
  by_cases hik : i < k
  · have h1 : t.testBit i = (t % 2 ^ k).testBit i := by
      rw [Nat.testBit_mod_two_pow]
      simp [hik]
    rw [h1, ht, Nat.zero_testBit, Bool.false_and]
  · have h2 : p.testBit i = false :=
      Nat.testBit_lt_two_pow
        (lt_of_lt_of_le hp (Nat.pow_le_pow_right (by norm_num)
          (le_of_not_lt hik)))
    rw [h2, Bool.and_false]

/-- Helper: XOR-ing a tag back out of a tag-OR-payload word recovers the
payload when tag and payload occupy disjoint bits. -/
theorem xor_or_cancel_of_land_eq_zero (t p : Nat) (h : t &&& p = 0) :
    t ^^^ (t ||| p) = p := by
  apply Nat.eq_of_testBit_eq
  intro i
  have hi : ¬(t.testBit i = true ∧ p.testBit i = true) := by
    rintro ⟨h1, h2⟩
    have := congrArg (fun x => Nat.testBit x i) h
    simp [Nat.testBit_and, h1, h2, Nat.zero_testBit] at this
  rw [Nat.testBit_xor, Nat.testBit_or]
  cases ht : t.testBit i <;> cases hp : p.testBit i <;> simp_all

/-- C8: executing the sequence emitted by `fallibleUnboxPtr` on a value `v`
held in `src` and any of the four pointer-type shifted tags: the branch to
the failure label is taken exactly when the XOR of `v` with the expected
shifted tag, shifted right by the tag shift, is nonzero — equivalently,
exactly when the tag bits of `v` differ from the expected tag — and the
destination register ends holding the XOR result, which is the untagged
payload whenever `v` is the expected tag ORed with a payload below the tag
shift (the fall-through case). -/
theorem fallibleUnboxPtr_branch_iff_tag_mismatch (m : Machine)
    (src dest t : Nat) (disp : Int)
    (hsrc : src ≠ ScratchRegister) (hdest : dest ≠ ScratchRegister)
    (hbr : m.branchTo = none) (hv : m.regs src < 2 ^ 64)
    (htag : t ∈ shiftedPointerTags) :
    (branchTaken (exec m (fallibleUnboxPtr src dest t disp)) =
       decide ((m.regs src ^^^ t) / 2 ^ JSVAL_TAG_SHIFT ≠ 0)) ∧
    (branchTaken (exec m (fallibleUnboxPtr src dest t disp)) =
       decide (m.regs src / 2 ^ JSVAL_TAG_SHIFT ≠ t / 2 ^ JSVAL_TAG_SHIFT)) ∧
    ((exec m (fallibleUnboxPtr src dest t disp)).regs dest =
       m.regs src ^^^ t) ∧
    (∀ p : Nat, p < 2 ^ JSVAL_TAG_SHIFT → m.regs src = t ||| p →
       branchTaken (exec m (fallibleUnboxPtr src dest t disp)) = false ∧
       (exec m (fallibleUnboxPtr src dest t disp)).regs dest = p) := by
  have hsrc0 : src ≠ 0 := by simpa [ScratchRegister] using hsrc
  have hdest0 : dest ≠ 0 := by simpa [ScratchRegister] using hdest
  have hd0 : (0 : Nat) ≠ dest := Ne.symm hdest0
  have ht64 : t < 2 ^ 64 := by fin_cases htag <;> decide
  have ht47 : t % 2 ^ 47 = 0 := by fin_cases htag <;> decide
  have hX : m.regs src ^^^ t < 2 ^ 64 := Nat.xor_lt_two_pow hv ht64
  have h1 : (exec m (ma_li ScratchRegister t)).regs 0 = t :=
    exec_ma_li_tag m t htag
  have h2 : (exec m (ma_li ScratchRegister t)).regs src = m.regs src :=
    exec_ma_li_regs_ne m ScratchRegister t src hsrc
  have h3 : (exec m (ma_li ScratchRegister t)).branchTo = none :=
    (exec_ma_li_branchTo m ScratchRegister t).trans hbr
  have hswap : t ^^^ m.regs src = m.regs src ^^^ t :=
    Nat.xor_comm t (m.regs src)
  have hshift : rotl64 (m.regs src ^^^ t) 17 % 2 ^ 17 =
      (m.regs src ^^^ t) / 2 ^ 47 := rotl64_srdi47 _ hX
  have hdiv : (m.regs src ^^^ t) / 2 ^ 47 < 2 ^ 17 := by
    apply Nat.div_lt_of_lt_mul
    calc m.regs src ^^^ t < 2 ^ 64 := hX
    _ = 2 ^ 47 * 2 ^ 17 := by norm_num
  have hmod32 : (m.regs src ^^^ t) / 2 ^ 47 % 2 ^ 32 =
      (m.regs src ^^^ t) / 2 ^ 47 :=
    Nat.mod_eq_of_lt (lt_trans hdiv (by norm_num))
  have hcnd : (toSigned32 ((m.regs src ^^^ t) / 2 ^ 47) = 0) ↔
      ((m.regs src ^^^ t) / 2 ^ 47 = 0) := by
    rw [toSigned32, if_pos (lt_trans hdiv (by norm_num))]
    exact Int.natCast_eq_zero
  have hlist : fallibleUnboxPtr src dest t disp =
      ma_li ScratchRegister t ++
      [Inst.xorx 0 0 src, Inst.orx dest 0 0, Inst.rldicl 0 0 17 47,
       Inst.cmpwi 0 0, Inst.bc .notEqual disp] := rfl
  have hcore :
      (exec m (fallibleUnboxPtr src dest t disp)).regs dest =
        m.regs src ^^^ t ∧
      branchTaken (exec m (fallibleUnboxPtr src dest t disp)) =
        decide ((m.regs src ^^^ t) / 2 ^ 47 ≠ 0) := by
    rw [hlist, exec_append]
    simp only [exec, step]
    simp [-Nat.reducePow, setReg_same, setReg_other, hsrc0, hdest0, hd0,
          h1, h2, hswap, Nat.or_self, show (64 : Nat) - 47 = 17 from rfl,
          hshift, hmod32, mkCmp, Condition.takes]
    simp only [hcnd]
    by_cases hz : (m.regs src ^^^ t) / 2 ^ 47 = 0 <;>
      simp [-Nat.reducePow, hz, setReg_same, setReg_other, hdest0, hd0,
            branchTaken, h3]
  refine ⟨by simpa [JSVAL_TAG_SHIFT] using hcore.2, ?_, hcore.1, ?_⟩
  · rw [show (2 : Nat) ^ JSVAL_TAG_SHIFT = 2 ^ 47 from rfl, hcore.2]
    have hiff : ((m.regs src ^^^ t) / 2 ^ 47 ≠ 0) ↔
        (m.regs src / 2 ^ 47 ≠ t / 2 ^ 47) := by
      rw [xor_div_two_pow, ne_eq, ne_eq, Nat.xor_eq_zero]
    rw [decide_eq_decide]
    exact hiff
  · intro p hp hvp
    rw [show (2 : Nat) ^ JSVAL_TAG_SHIFT = 2 ^ 47 from rfl] at hp
    have hdisj : t &&& p = 0 := land_eq_zero_of_mod_lt t p 47 ht47 hp
    have hXp : m.regs src ^^^ t = p := by
      rw [hvp, Nat.xor_comm]
      exact xor_or_cancel_of_land_eq_zero t p hdisj
    have hz : (m.regs src ^^^ t) / 2 ^ 47 = 0 := by
      rw [hXp]
      exact Nat.div_eq_of_lt hp
    exact ⟨by rw [hcore.2]; simp [-Nat.reducePow, hz], by rw [hcore.1, hXp]⟩

/-- Witness for C8: unboxing the object-tagged value in `mUnbox` (payload
99) with the object shifted tag falls through (no branch) and leaves the
payload 99 in the destination register. -/
theorem fallibleUnboxPtr_branch_iff_tag_mismatch_witness :
    branchTaken (exec mUnbox (fallibleUnboxPtr 4 5 (0x1FFFC * 2 ^ 47) 8)) =
      false ∧
    (exec mUnbox (fallibleUnboxPtr 4 5 (0x1FFFC * 2 ^ 47) 8)).regs 5 = 99 :=
  (fallibleUnboxPtr_branch_iff_tag_mismatch mUnbox 4 5 (0x1FFFC * 2 ^ 47) 8
    (by decide) (by decide) rfl (by decide) (by decide)).2.2.2 99
    (by decide) (by decide)

/-- C10: `move64To32` emits exactly the one full-width `or` of the source
with itself and no masking instruction, and executing it leaves all 64 bits
of the destination equal to the source register's value. -/
theorem move64To32_full_width_move (m : Machine) (src dest : Nat) :
    move64To32 src dest = [Inst.orx dest src src] ∧
    (exec m (move64To32 src dest)).regs dest = m.regs src := by
  refine ⟨rfl, ?_⟩
  simp [move64To32, exec, step, setReg, Nat.or_self]

end PPC64
